import Mathlib

/-!
Shallow embedding of `src/main.py` (aurora-monitor): a monitor that extracts
per-day seat availability for February 2026 from an HTML calendar page,
diffs it against a persisted previous snapshot and posts notifications.

Status values are the source's marker strings: `"×"` is Full (no seats,
the baseline), `"○"` is Open, `"△"` is Limited.
-/

/-! ## Python string primitives

The source manipulates Python `str` values with `in`, `split`, `replace`,
`int()` and f-strings.  Lean's built-in `String.splitOn` does not reduce
inside the kernel, so we model the Python operations over `List Char`
with structurally recursive functions.  `pySplitAux` takes fuel; callers
pass `length + 1`, which is enough because every step consumes at least
one character (all separators used by the source are nonempty). -/

def listStartsWith : List Char → List Char → Bool
  | [], _ => true
  | _ :: _, [] => false
  | p :: ps, c :: cs => p = c && listStartsWith ps cs

/-- Model of Python `sub in s` (substring containment). -/
def listHasSub (sub : List Char) : List Char → Bool
  | [] => listStartsWith sub []
  | c :: cs => listStartsWith sub (c :: cs) || listHasSub sub cs

def pyContains (sub s : String) : Bool :=
  listHasSub sub.data s.data

def pySplitAux (sep : List Char) : Nat → List Char → List Char → List (List Char)
  | 0, _, acc => [acc.reverse]
  | _ + 1, [], acc => [acc.reverse]
  | fuel + 1, c :: cs, acc =>
    if listStartsWith sep (c :: cs) then
      acc.reverse :: pySplitAux sep fuel ((c :: cs).drop sep.length) []
    else
      pySplitAux sep fuel cs (c :: acc)

/-- Model of Python `s.split(sep)` for a nonempty separator: non-overlapping
left-to-right splits, keeping empty pieces. -/
def pySplit (s sep : String) : List String :=
  (pySplitAux sep.data (s.data.length + 1) s.data []).map String.mk

/-- Model of Python `s.replace(old, new)` (all occurrences) for nonempty
`old`. -/
def pyReplace (s old new : String) : String :=
  String.mk (List.intercalate new.data ((pySplit s old).map String.data))

/-- Model of Python `int(s)` on the strings this program feeds it:
`some` the value on a nonempty all-digit string, `none` (a raised
`ValueError`) otherwise.  (Python's `int` also accepts signs and
surrounding whitespace; the key strings of this program are plain digit
runs, so the restriction is inessential.) -/
def pyInt (s : String) : Option Nat :=
  if s.data ≠ [] ∧ s.data.all Char.isDigit then
    some (s.data.foldl (fun n c => n * 10 + (c.toNat - 48)) 0)
  else none

/-! ## Python dicts

A Python `dict` from `str` to `str`, as an insertion-ordered association
list with unique keys.  Assignment updates in place when the key exists
and appends otherwise, exactly like CPython. -/

abbrev StatusMap := List (String × String)

/-- Model of `m[k] = v` on a Python dict. -/
def dictSet (m : StatusMap) (k v : String) : StatusMap :=
  match m with
  | [] => [(k, v)]
  | (k', v') :: rest => if k' = k then (k, v) :: rest else (k', v') :: dictSet rest k v

/-- Model of `m.get(k, dflt)`; `m[k]` is the same with the in-domain
guarantee held at every use site. -/
def dictGet (m : StatusMap) (k dflt : String) : String :=
  match m with
  | [] => dflt
  | (k', v) :: rest => if k' = k then v else dictGet rest k dflt

def dictKeys (m : StatusMap) : List String := m.map Prod.fst

/-! ## The parsed page

`BeautifulSoup` is an external collaborator; its output is modelled
structurally.  A document is its `table` elements in document order; a
table is its `td` cells in document order; a cell carries its first
anchor (`cell.find('a')`) if any; an anchor carries its `href` attribute
and the stripped text of its first `em` descendant (`link.find('em')`,
`em_tag.get_text(strip=True)`). -/

structure ALink where
  href : Option String
  em : Option String
deriving DecidableEq

structure Cell where
  link : Option ALink
deriving DecidableEq

structure HtmlTable where
  cells : List Cell
deriving DecidableEq

structure HtmlDoc where
  tables : List HtmlTable
deriving DecidableEq

/-! ## Extraction (`get_availability_status`, src/main.py lines 41-109)

The HTTP fetch is external; the model starts from the parsed document.
`none` models `return None` (fewer than three tables; the fetch-failure
paths are outside the model). -/

/-- Day label `f"2月{i}日"`. -/
def monthLabel (i : Nat) : String := "2月" ++ toString i ++ "日"

/-- `range(1, 29)`: the days of February 2026. -/
def monthDays : List Nat := List.range' 1 28

/-- The seeding loop, lines 72-74: every day starts out `"×"` (Full). -/
def initAvail : StatusMap := monthDays.map (fun i => (monthLabel i, "×"))

/-- The body of the cell loop, lines 77-97, for one cell. -/
def processCell (availability : StatusMap) (cell : Cell) : StatusMap :=
  match cell.link with
  | none => availability
  | some link =>
    if pyContains "ynj=" (link.href.getD "") then
      let href := link.href.getD ""
      let date_str := (pySplit ((pySplit href "ynj=").getD 1 "") "#").getD 0 ""
      let day := (pySplit date_str "-").getLastD ""
      let day_key := "2月" ++ day ++ "日"
      match link.em with
      | some status_text =>
        if pyContains "○" status_text then dictSet availability day_key "○"
        else if pyContains "△" status_text then dictSet availability day_key "△"
        else availability
      | none => availability
    else availability

/-- `tables[2]`, line 68 (defined whenever at least three tables exist). -/
def calendar_table (doc : HtmlDoc) : HtmlTable :=
  (doc.tables.drop 2).headD ⟨[]⟩

def get_availability_status (doc : HtmlDoc) : Option StatusMap :=
  if doc.tables.length < 3 then none
  else some ((calendar_table doc).cells.foldl processCell initAvail)

/-- Specification of what one cell writes: `some (day_key, marker)` when
the cell has a link whose href contains `ynj=` and whose `em` text
contains a recognized marker, `none` otherwise.  `processCell` is proved
equal to dispatching on this below. -/
def cellWrite (cell : Cell) : Option (String × String) :=
  match cell.link with
  | none => none
  | some link =>
    if pyContains "ynj=" (link.href.getD "") then
      let href := link.href.getD ""
      let date_str := (pySplit ((pySplit href "ynj=").getD 1 "") "#").getD 0 ""
      let day := (pySplit date_str "-").getLastD ""
      let day_key := "2月" ++ day ++ "日"
      match link.em with
      | some status_text =>
        if pyContains "○" status_text then some (day_key, "○")
        else if pyContains "△" status_text then some (day_key, "△")
        else none
      | none => none
    else none

example : pySplit "aynj=bynj=c" "ynj=" = ["a", "b", "c"] := by decide
example : (pySplit "2026-2-5" "-").getLastD "" = "5" := by decide
example : pyReplace "2月12日" "2月" "" = "12日" := by decide
example : pyInt "12" = some 12 := by decide
example : monthLabel 12 = "2月12日" := by decide

/-! ## Persisted state (`load_previous_state` / `save_current_state`,
src/main.py lines 112-129)

The state file holds `json.dump(state, f, ensure_ascii=False, indent=2)`
of the availability dict; loading is `json.load` with any exception
mapped to `{}`.  The `json` library is an external collaborator; we model
the fragment it is used on — an object whose values are strings — with a
faithful encoder (indent-2 layout, Python's escaping) and a
recursive-descent decoder.  Decoder failure (`none`) models a raised
`json.JSONDecodeError`. -/

def hexDigit (n : Nat) : Char :=
  if n < 10 then Char.ofNat (48 + n) else Char.ofNat (87 + n)

/-- Python `json`'s escaping of one character (`ensure_ascii=False`). -/
def jsonEscapeChar (c : Char) : List Char :=
  if c = '"' then ['\\', '"']
  else if c = '\\' then ['\\', '\\']
  else if c.toNat < 32 then
    (if c = '\n' then ['\\', 'n']
     else if c = '\t' then ['\\', 't']
     else if c = '\r' then ['\\', 'r']
     else if c = '\x08' then ['\\', 'b']
     else if c = '\x0c' then ['\\', 'f']
     else ['\\', 'u', '0', '0', hexDigit (c.toNat / 16), hexDigit (c.toNat % 16)])
  else [c]

def jsonQuote (s : String) : List Char :=
  '"' :: ((s.data.map jsonEscapeChar).flatten ++ ['"'])

/-- One `"key": "value"` member, at indent 2. -/
def memberChars (kv : String × String) : List Char :=
  ' ' :: ' ' :: (jsonQuote kv.1 ++ ':' :: ' ' :: jsonQuote kv.2)

/-- The members, joined by `",\n"`. -/
def encMembers : List (String × String) → List Char
  | [] => []
  | [kv] => memberChars kv
  | kv :: kv' :: rest => memberChars kv ++ ',' :: '\n' :: encMembers (kv' :: rest)

/-- The closing `"\n\x7d"` of a nonempty indent-2 object. -/
def closeChars : List Char := ['\n', '\x7d']

/-- What follows the first member: the closer, or a separator and the
remaining members. -/
def memTail : List (String × String) → List Char
  | [] => closeChars
  | kv :: rest => ',' :: '\n' :: (encMembers (kv :: rest) ++ closeChars)

/-- `json.dump(m, f, ensure_ascii=False, indent=2)`. -/
def jsonDumpChars (m : StatusMap) : List Char :=
  if m.isEmpty then ['\x7b', '\x7d']
  else '\x7b' :: '\n' :: (encMembers m ++ closeChars)

def jsonDumps (m : StatusMap) : String := String.mk (jsonDumpChars m)

def jsonWs (c : Char) : Bool :=
  c = ' ' || c = '\n' || c = '\t' || c = '\r'

def skipWs (cs : List Char) : List Char := cs.dropWhile jsonWs

def jsonUnescape (c : Char) : Option Char :=
  if c = '"' then some '"'
  else if c = '\\' then some '\\'
  else if c = '/' then some '/'
  else if c = 'n' then some '\n'
  else if c = 't' then some '\t'
  else if c = 'r' then some '\r'
  else if c = 'b' then some '\x08'
  else if c = 'f' then some '\x0c'
  else none

/-- String body parser, positioned after the opening quote.  `\uXXXX`
escapes are rejected here although Python accepts them — the encoder
above never produces them for the day-label and marker strings this
program stores — so rejection by this parser must not be read as a
`json.load` failure; see the note on `jsonLoads`. -/
def parseQuotedAux : List Char → List Char → Option (String × List Char)
  | [], _ => none
  | c :: rest, acc =>
    if c = '"' then some (String.mk acc.reverse, rest)
    else if c = '\\' then
      match rest with
      | [] => none
      | e :: rest' =>
        match jsonUnescape e with
        | some ch => parseQuotedAux rest' (ch :: acc)
        | none => none
    else parseQuotedAux rest (c :: acc)

def parseQuoted (cs : List Char) : Option (String × List Char) :=
  match cs with
  | [] => none
  | c :: rest => if c = '"' then parseQuotedAux rest [] else none

/-- Members of an object, starting at the opening quote of a key and
consuming through the closing `\x7d`.  Fuel decreases on every member;
callers pass more fuel than the member count can be. -/
def parseMembers : Nat → List Char → Option (List (String × String) × List Char)
  | 0, _ => none
  | fuel + 1, cs => do
    let (k, cs1) ← parseQuoted cs
    match skipWs cs1 with
    | [] => none
    | c :: cs3 =>
      if c = ':' then do
        let (v, cs5) ← parseQuoted (skipWs cs3)
        match skipWs cs5 with
        | [] => none
        | c2 :: cs7 =>
          if c2 = ',' then do
            let (rest, tail) ← parseMembers fuel (skipWs cs7)
            pure ((k, v) :: rest, tail)
          else if c2 = '\x7d' then pure ([(k, v)], cs7)
          else none
      else none

/-- `json.load` on the fragment this program stores: a JSON object with
string values, with nothing but whitespace after it. -/
def jsonLoadChars (cs : List Char) : Option (List (String × String)) :=
  match skipWs cs with
  | [] => none
  | c :: rest =>
    if c = '\x7b' then
      match skipWs rest with
      | [] => none
      | c2 :: rest2 =>
        if c2 = '\x7d' then
          if (skipWs rest2).isEmpty then some [] else none
        else do
          let (mems, tail) ← parseMembers ((skipWs rest).length + 1) (skipWs rest)
          if (skipWs tail).isEmpty then pure mems else none
    else none

/-- Duplicate keys in the text resolve last-wins, as in Python.

Partiality of this model: `jsonLoadChars` decodes exactly the
string-valued-object fragment — the only shape `save_current_state` ever
writes — so `jsonLoads` is a faithful model of `json.load` on that
fragment (the round-trip and empty-object theorems confine themselves to
it).  Its failure is NOT a model of `json.load` failure: Python also
parses arrays, numbers, objects with non-string values and `\uXXXX`
escapes, which this decoder rejects.  Statements about corrupt stored
state therefore never use failure of this decoder as the corruption
condition; they use `pyJsonLoadFails` below, whose rejections are proved
(`jsonLoadChars_none_of_pyJsonLoadFails`) to be rejections here too. -/
def jsonLoads (s : String) : Option StatusMap :=
  (jsonLoadChars s.data).map (fun mems => mems.foldl (fun d kv => dictSet d kv.1 kv.2) [])

/-! ## Model of `json.load` acceptance

`pyJsonLoadFails` is a completeness-oriented model of `json.load`
raising `JSONDecodeError`: the recognizer `jsonSkip` accepts at least
every document Python's `json.load` accepts — all of JSON (objects,
arrays, strings, numbers, `true`/`false`/`null`) plus Python's
`NaN`/`Infinity`/`-Infinity` constants — being lenient where exactness
does not matter (any backslash escape, raw control characters, loose
number tails), so a text it rejects is one `json.load` genuinely raises
on.  Values are not built: only acceptance matters. -/

/-- Skip a string body after the opening quote (lenient: any escaped
character, raw control characters allowed). -/
def skipJString : List Char → Option (List Char)
  | [] => none
  | c :: r =>
    if c = '"' then some r
    else if c = '\\' then
      match r with
      | [] => none
      | _ :: r' => skipJString r'
    else skipJString r

/-- Skip a whole string starting at its opening quote. -/
def skipJQuoted (cs : List Char) : Option (List Char) :=
  match cs with
  | [] => none
  | c :: r => if c = '"' then skipJString r else none

/-- Consume an exact literal tail. -/
def expectLit (lit cs : List Char) : Option (List Char) :=
  if listStartsWith lit cs then some (cs.drop lit.length) else none

/-- Skip an exponent tail: optional sign, then digits. -/
def skipExpTail (r : List Char) : List Char :=
  match r with
  | '+' :: x => x.dropWhile Char.isDigit
  | '-' :: x => x.dropWhile Char.isDigit
  | _ => r.dropWhile Char.isDigit

/-- Skip a number starting at its first digit (lenient superset of the
JSON number grammar). -/
def skipJNumber (cs : List Char) : Option (List Char) :=
  match cs with
  | [] => none
  | c :: _ =>
    if c.isDigit then
      let r1 := cs.dropWhile Char.isDigit
      let r2 := match r1 with
        | '.' :: r => r.dropWhile Char.isDigit
        | _ => r1
      let r3 := match r2 with
        | 'e' :: r => skipExpTail r
        | 'E' :: r => skipExpTail r
        | _ => r2
      some r3
    else none

/-- What `jsonSkip` is currently consuming: one value, the members of an
object (positioned at a key's opening quote), or the elements of an
array (positioned at a value). -/
inductive JMode
  | value
  | members
  | elems
deriving DecidableEq

/-- The recognizer.  Fuel decreases on every recursive call; the
top-level caller passes more than the input length, which suffices since
every member or element consumes at least one character. -/
def jsonSkip : Nat → JMode → List Char → Option (List Char)
  | 0, _, _ => none
  | fuel + 1, JMode.value, cs =>
    match cs with
    | [] => none
    | c :: r =>
      if c = '"' then skipJString r
      else if c = '\x7b' then
        match skipWs r with
        | [] => none
        | c2 :: r2 => if c2 = '\x7d' then some r2 else jsonSkip fuel JMode.members (skipWs r)
      else if c = '[' then
        match skipWs r with
        | [] => none
        | c2 :: r2 => if c2 = ']' then some r2 else jsonSkip fuel JMode.elems (skipWs r)
      else if c = 't' then expectLit ['r', 'u', 'e'] r
      else if c = 'f' then expectLit ['a', 'l', 's', 'e'] r
      else if c = 'n' then expectLit ['u', 'l', 'l'] r
      else if c = 'N' then expectLit ['a', 'N'] r
      else if c = 'I' then expectLit ['n', 'f', 'i', 'n', 'i', 't', 'y'] r
      else if c = '-' then
        if listStartsWith ['I', 'n', 'f', 'i', 'n', 'i', 't', 'y'] r then some (r.drop 8)
        else skipJNumber r
      else if c.isDigit then skipJNumber cs
      else none
  | fuel + 1, JMode.members, cs => do
    let cs1 ← skipJQuoted cs
    match skipWs cs1 with
    | [] => none
    | c :: cs3 =>
      if c = ':' then do
        let cs5 ← jsonSkip fuel JMode.value (skipWs cs3)
        match skipWs cs5 with
        | [] => none
        | c2 :: cs7 =>
          if c2 = ',' then jsonSkip fuel JMode.members (skipWs cs7)
          else if c2 = '\x7d' then some cs7
          else none
      else none
  | fuel + 1, JMode.elems, cs => do
    let cs5 ← jsonSkip fuel JMode.value cs
    match skipWs cs5 with
    | [] => none
    | c2 :: cs7 =>
      if c2 = ',' then jsonSkip fuel JMode.elems (skipWs cs7)
      else if c2 = ']' then some cs7
      else none

/-- Model of `json.load` raising on text `s`: the recognizer rejects it,
or leaves trailing non-whitespace (Python's "Extra data").  Because the
recognizer accepts a superset of what Python accepts, `true` here means
`json.load` genuinely raises. -/
def pyJsonLoadFails (s : String) : Bool :=
  match jsonSkip (s.data.length + 2) JMode.value (skipWs s.data) with
  | none => true
  | some tail => !(skipWs tail).isEmpty

example : pyJsonLoadFails "not json" = true := by decide
example : pyJsonLoadFails "" = true := by decide
example : pyJsonLoadFails "\x7b\"a\": \"b\"" = true := by decide
example : pyJsonLoadFails "\x7b\x7d extra" = true := by decide
example : pyJsonLoadFails "\x7b\x7d" = false := by decide
example : pyJsonLoadFails "\x7b\"2月5日\": 5\x7d" = false := by decide
example : pyJsonLoadFails "[\"x\"]" = false := by decide
example : pyJsonLoadFails "\x7b\"a\": \"\\u0041\"\x7d" = false := by decide
example : pyJsonLoadFails "\x7b\"a\": 1.5e-3, \"b\": [1, true, null, NaN, -Infinity]\x7d" = false := by
  decide

/-- The state file: `absent` models a missing `aurora_state.json`,
`stored s` a file holding text `s`. -/
inductive StateFile
  | absent
  | stored (content : String)
deriving DecidableEq

/-- Lines 112-120: a missing file or any load exception yields `{}`. -/
def load_previous_state (f : StateFile) : StatusMap :=
  match f with
  | .absent => []
  | .stored s => (jsonLoads s).getD []

/-- Lines 123-129: the file is rewritten with the serialized state. -/
def save_current_state (state : StatusMap) (_old : StateFile) : StateFile :=
  .stored (jsonDumps state)

example : jsonDumps [] = "\x7b\x7d" := by decide
example : jsonLoads "\x7b\x7d" = some [] := by decide
example : jsonLoads (jsonDumps [("2月1日", "×"), ("2月2日", "○")]) =
    some [("2月1日", "×"), ("2月2日", "○")] := by decide
example : jsonLoads "not json" = none := by decide

/-! ## Diff and notification (`compare_and_notify`, src/main.py lines 132-172)

Sending to Slack is an external collaborator; the outcome records what
the function decided and `sentMessages` the texts it handed to
`send_slack_notification`.  Both branches sort the current dict's keys
with `key=lambda x: int(x.replace('2月', '').replace('日', ''))`; if any
key does not parse, `int` raises and the exception escapes
`compare_and_notify` — modelled by `none`. -/

def CHECK_INTERVAL : Nat := 600

def TARGET_URL : String := "https://www.ms-aurora.com/abashiri/reserves/new.php?ym=2026-02"

/-- The sort key `int(x.replace('2月', '').replace('日', ''))`. -/
def dayOfKey (k : String) : Option Nat :=
  pyInt (pyReplace (pyReplace k "2月" "") "日" "")

/-- Ascending comparison of two keys by the sort key above. -/
def keyLe (a b : String) : Prop :=
  (dayOfKey a).getD 0 ≤ (dayOfKey b).getD 0

instance : DecidableRel keyLe := fun a b =>
  inferInstanceAs (Decidable ((dayOfKey a).getD 0 ≤ (dayOfKey b).getD 0))

instance : IsTotal String keyLe := ⟨fun a b => Nat.le_total ((dayOfKey a).getD 0) ((dayOfKey b).getD 0)⟩

instance : IsTrans String keyLe := ⟨fun _ _ _ => Nat.le_trans⟩

/-- `sorted(m.keys(), key=...)`: Python's sort is stable and ascending by
the key function, which it evaluates on every element first (raising —
`none` — if any element fails).  Any stable ascending sort computes the
same list, so a stable insertion sort stands in for Timsort. -/
def sortedDictKeys (m : StatusMap) : Option (List String) :=
  let keys := dictKeys m
  if keys.all (fun k => (dayOfKey k).isSome) then
    some (keys.insertionSort keyLe)
  else none

/-- Line 144: `f"  • {day}: {status}"`. -/
def availLine (day status : String) : String :=
  "  • " ++ day ++ ": " ++ status

/-- Lines 162-163: one rendered change. -/
def changeLine (day previous current : String) : String :=
  (if current ∈ ["○", "△"] then "🎉" else "😢") ++
    " *" ++ day ++ "*: " ++ previous ++ " → " ++ current

/-- Lines 157-163 as data: for each day of the sorted key list, the
`(day, previous, current)` triple when the two statuses differ. -/
def change_triples (current_status previous_status : StatusMap)
    (sortedKeys : List String) : List (String × String × String) :=
  sortedKeys.filterMap (fun day =>
    let current := dictGet current_status day ""
    let previous := dictGet previous_status day "×"
    if current ≠ previous then some (day, previous, current) else none)

/-- Lines 136-151: the first-run message. -/
def renderFirstRun (available_days : List String) : String :=
  "🚢 *オーロラ号監視を開始しました*\n\n" ++
    "📅 *2026年2月の現在の空き状況:*\n" ++
    (if available_days.isEmpty then "  現在空きのある日はありません（全て満席）"
     else String.intercalate "\n" available_days) ++
    "\n\n⏰ " ++ toString (CHECK_INTERVAL / 60) ++ "分おきに監視します"

/-- Lines 166-168: the change-alert message. -/
def renderChanges (changes : List String) : String :=
  "🚨 *オーロラ号の空き状況が変わりました！*\n\n" ++
    String.intercalate "\n" changes ++
    "\n\n🔗 予約ページ: " ++ TARGET_URL

/-- What `compare_and_notify` decided: the first-run branch with its
`available_days` lines, or the change branch with its rendered change
lines. -/
inductive NotifyOutcome
  | firstRun (available_days : List String)
  | changes (changeLines : List String)
deriving DecidableEq

def compare_and_notify (current_status previous_status : StatusMap) :
    Option NotifyOutcome :=
  if previous_status.isEmpty then
    (sortedDictKeys current_status).map (fun keys =>
      NotifyOutcome.firstRun (keys.filterMap (fun day =>
        let status := dictGet current_status day ""
        if status ∈ ["○", "△"] then some (availLine day status) else none)))
  else
    (sortedDictKeys current_status).map (fun keys =>
      NotifyOutcome.changes
        ((change_triples current_status previous_status keys).map
          (fun t => changeLine t.1 t.2.1 t.2.2)))

/-- The texts passed to `send_slack_notification`: the first-run branch
always sends (line 152); the change branch sends only when the change
list is nonempty (lines 165-172). -/
def sentMessages : NotifyOutcome → List String
  | .firstRun ds => [renderFirstRun ds]
  | .changes cs => if cs.isEmpty then [] else [renderChanges cs]

/-! ## One cycle of the monitor loop (src/main.py lines 197-209) -/

/-- One iteration body of `main`'s loop: `fetched = none` models a fetch
failure (`get_availability_status` returned `None` before reaching the
parse).  Returns the state file after the cycle and the notifications
sent; `none` models an exception escaping the iteration (which aborts
the whole monitor).  An extraction failure leaves the state file
untouched and sends nothing. -/
def runCycle (fetched : Option HtmlDoc) (store : StateFile) :
    Option (StateFile × List String) :=
  match fetched.bind get_availability_status with
  | none => some (store, [])
  | some current_status =>
    if current_status.isEmpty then some (store, [])
    else
      match compare_and_notify current_status (load_previous_state store) with
      | none => none
      | some outcome =>
        some (save_current_state current_status store, sentMessages outcome)

example : sortedDictKeys [("2月10日", "×"), ("2月2日", "○")] =
    some ["2月2日", "2月10日"] := by decide
example : compare_and_notify [("2月5日", "○"), ("2月6日", "×")] [("2月5日", "×")] =
    some (.changes [changeLine "2月5日" "×" "○"]) := by decide
example : compare_and_notify [("2月5日", "○")] [] =
    some (.firstRun [availLine "2月5日" "○"]) := by decide

/-! ## Dict lemmas -/

lemma dictGet_dictSet_self (m : StatusMap) (k v d : String) :
    dictGet (dictSet m k v) k d = v := by
  induction m with
  | nil => simp [dictSet, dictGet]
  | cons kv rest ih =>
    obtain ⟨k', v'⟩ := kv
    by_cases h : k' = k
    · subst h; simp [dictSet, dictGet]
    · simp [dictSet, dictGet, h, ih]

lemma dictGet_dictSet_ne (m : StatusMap) {k' k : String} (h : k' ≠ k) (v d : String) :
    dictGet (dictSet m k' v) k d = dictGet m k d := by
  induction m with
  | nil => simp [dictSet, dictGet, h]
  | cons kv rest ih =>
    obtain ⟨a, b⟩ := kv
    by_cases ha : a = k'
    · subst ha; simp [dictSet, dictGet, h, ih]
    · simp only [dictSet, if_neg ha]
      by_cases hak : a = k
      · simp [dictGet, hak]
      · simp [dictGet, hak, ih]

lemma mem_dictKeys_dictSet {m : StatusMap} {x : String} (h : x ∈ dictKeys m)
    (k v : String) : x ∈ dictKeys (dictSet m k v) := by
  induction m with
  | nil => simp [dictKeys] at h
  | cons kv rest ih =>
    obtain ⟨k', v'⟩ := kv
    simp only [dictKeys, List.map_cons, List.mem_cons] at h
    simp only [dictSet]
    by_cases hk : k' = k
    · rw [if_pos hk]
      simp only [dictKeys, List.map_cons, List.mem_cons]
      rcases h with h | h
      · exact Or.inl (hk ▸ h)
      · exact Or.inr h
    · rw [if_neg hk]
      simp only [dictKeys, List.map_cons, List.mem_cons]
      rcases h with h | h
      · exact Or.inl h
      · exact Or.inr (ih h)

lemma dictSet_of_not_mem {m : StatusMap} {k : String} (h : k ∉ dictKeys m) (v : String) :
    dictSet m k v = m ++ [(k, v)] := by
  induction m with
  | nil => rfl
  | cons kv rest ih =>
    obtain ⟨k', v'⟩ := kv
    simp only [dictKeys, List.map_cons, List.mem_cons, not_or] at h
    have hne : k' ≠ k := fun hh => h.1 hh.symm
    simp only [dictSet, if_neg hne, List.cons_append]
    rw [ih h.2]

lemma dictGet_eq_of_key_mem {m : StatusMap} {k : String} (h : k ∈ dictKeys m)
    (d1 d2 : String) : dictGet m k d1 = dictGet m k d2 := by
  induction m with
  | nil => simp [dictKeys] at h
  | cons kv rest ih =>
    obtain ⟨k', v'⟩ := kv
    by_cases hk : k' = k
    · simp [dictGet, hk]
    · simp only [dictKeys, List.map_cons, List.mem_cons] at h
      rcases h with h | h
      · exact absurd h.symm hk
      · simp [dictGet, hk, ih h]

lemma dictGet_of_mem_nodup {m : StatusMap} {k v : String} (h : (k, v) ∈ m)
    (hn : (dictKeys m).Nodup) (d : String) : dictGet m k d = v := by
  induction m with
  | nil => simp at h
  | cons kv rest ih =>
    obtain ⟨k', v'⟩ := kv
    simp only [dictKeys, List.map_cons, List.nodup_cons] at hn
    rcases List.mem_cons.mp h with h | h
    · obtain ⟨h1, h2⟩ := Prod.mk.injEq .. ▸ h
      simp [dictGet, h1.symm, h2.symm]
    · have hk : k' ≠ k := by
        rintro rfl
        exact hn.1 (List.mem_map.mpr ⟨(k', v), h, rfl⟩)
      simp [dictGet, hk, ih h hn.2]

lemma foldl_dictSet_append (l : List (String × String)) (acc : StatusMap)
    (hd : ∀ kv ∈ l, kv.1 ∉ dictKeys acc) (hn : (dictKeys l).Nodup) :
    l.foldl (fun d kv => dictSet d kv.1 kv.2) acc = acc ++ l := by
  induction l generalizing acc with
  | nil => simp
  | cons kv rest ih =>
    obtain ⟨k, v⟩ := kv
    simp only [dictKeys, List.map_cons, List.nodup_cons] at hn
    have hd2 : ∀ kv' ∈ rest, kv'.1 ∉ dictKeys (acc ++ [(k, v)]) := by
      intro kv' hkv' hmem
      rw [dictKeys, List.map_append] at hmem
      rcases List.mem_append.mp hmem with hm | hm
      · exact hd kv' (List.mem_cons_of_mem _ hkv') hm
      · have hk1 : kv'.1 = k := by simpa using hm
        exact hn.1 (hk1 ▸ List.mem_map.mpr ⟨kv', hkv', rfl⟩)
    rw [List.foldl_cons, dictSet_of_not_mem (hd (k, v) (List.mem_cons_self _ _)),
      ih _ hd2 hn.2]
    simp

/-! ## Cell-processing lemmas -/

lemma processCell_eq_cellWrite (availability : StatusMap) (cell : Cell) :
    processCell availability cell =
      match cellWrite cell with
      | some kv => dictSet availability kv.1 kv.2
      | none => availability := by
  obtain ⟨link⟩ := cell
  cases link with
  | none => rfl
  | some l =>
    obtain ⟨href, em⟩ := l
    cases em with
    | none =>
      simp only [processCell, cellWrite]
      by_cases h1 : pyContains "ynj=" (href.getD "") = true
      · rw [if_pos h1, if_pos h1]
      · rw [if_neg h1, if_neg h1]
    | some status_text =>
      simp only [processCell, cellWrite]
      by_cases h1 : pyContains "ynj=" (href.getD "") = true
      · rw [if_pos h1, if_pos h1]
        by_cases h2 : pyContains "○" status_text = true
        · rw [if_pos h2, if_pos h2]
        · rw [if_neg h2, if_neg h2]
          by_cases h3 : pyContains "△" status_text = true
          · rw [if_pos h3, if_pos h3]
          · rw [if_neg h3, if_neg h3]
      · rw [if_neg h1, if_neg h1]

lemma foldl_processCell_no_writes {cells : List Cell}
    (h : ∀ c ∈ cells, cellWrite c = none) (a : StatusMap) :
    cells.foldl processCell a = a := by
  induction cells generalizing a with
  | nil => rfl
  | cons c cs ih =>
    rw [List.foldl_cons, processCell_eq_cellWrite, h c (List.mem_cons_self _ _)]
    exact ih (fun c' hc' => h c' (List.mem_cons_of_mem _ hc')) a

lemma foldl_processCell_get_untouched {cells : List Cell} {k : String}
    (h : ∀ c ∈ cells, ∀ kv, cellWrite c = some kv → kv.1 ≠ k) (a : StatusMap) (d : String) :
    dictGet (cells.foldl processCell a) k d = dictGet a k d := by
  induction cells generalizing a with
  | nil => rfl
  | cons c cs ih =>
    rw [List.foldl_cons,
      ih (fun c' hc' => h c' (List.mem_cons_of_mem _ hc')) (processCell a c),
      processCell_eq_cellWrite]
    cases hw : cellWrite c with
    | none => rfl
    | some kv =>
      exact dictGet_dictSet_ne a (h c (List.mem_cons_self _ _) kv hw) kv.2 d

/-- Which value a cell writes under key `k`. -/
def cellWriteTo (k : String) (c : Cell) : Option String :=
  match cellWrite c with
  | some kv => if kv.1 = k then some kv.2 else none
  | none => none

lemma foldl_processCell_get_last (cells : List Cell) (k d : String) (a : StatusMap) :
    dictGet (cells.foldl processCell a) k d =
      ((cells.filterMap (cellWriteTo k)).getLast?).getD (dictGet a k d) := by
  induction cells generalizing a with
  | nil => rfl
  | cons c cs ih =>
    rw [List.foldl_cons, ih (processCell a c), List.filterMap_cons,
      processCell_eq_cellWrite]
    cases hw : cellWrite c with
    | none => simp only [cellWriteTo, hw]
    | some kv =>
      simp only [cellWriteTo, hw]
      by_cases hk : kv.1 = k
      · subst hk
        rw [if_pos rfl, dictGet_dictSet_self]
        dsimp only
        rw [← List.singleton_append, List.getLast?_append]
        cases (cs.filterMap (cellWriteTo kv.1)).getLast? <;> rfl
      · rw [if_neg hk, dictGet_dictSet_ne a hk kv.2 d]

lemma mem_dictKeys_foldl_processCell {cells : List Cell} {x : String}
    (h : x ∈ dictKeys initAvail) :
    x ∈ dictKeys (cells.foldl processCell initAvail) := by
  suffices hgen : ∀ a : StatusMap, x ∈ dictKeys a → x ∈ dictKeys (cells.foldl processCell a) by
    exact hgen initAvail h
  induction cells with
  | nil => exact fun a ha => ha
  | cons c cs ih =>
    intro a ha
    rw [List.foldl_cons]
    refine ih (processCell a c) ?_
    rw [processCell_eq_cellWrite]
    cases cellWrite c with
    | none => exact ha
    | some kv => exact mem_dictKeys_dictSet ha kv.1 kv.2

/-! ## Canonical key order

A "valid `DayStatusMap`" in the spec's sense is a dict carrying exactly
the 28 day labels of February 2026, in some insertion order, i.e. a
permutation of `canonMap f` for the function `f` giving each day's
status. -/

/-- The day labels in ascending day order. -/
def canonKeys : List String := monthDays.map monthLabel

/-- The valid map with status `f d` for each day `d`, in ascending
insertion order. -/
def canonMap (f : Nat → String) : StatusMap :=
  monthDays.map (fun d => (monthLabel d, f d))

/-- Strict comparison by the sort key. -/
def keyLt (a b : String) : Prop :=
  (dayOfKey a).getD 0 < (dayOfKey b).getD 0

instance : DecidableRel keyLt := fun a b =>
  inferInstanceAs (Decidable ((dayOfKey a).getD 0 < (dayOfKey b).getD 0))

instance : IsAntisymm String keyLt :=
  ⟨fun _ _ h h' => absurd (Nat.lt_trans h h') (Nat.lt_irrefl _)⟩

lemma canonKeys_nodup : canonKeys.Nodup := by decide

lemma canonKeys_sorted_lt : canonKeys.Sorted keyLt := by decide

lemma canonKeys_dayOfKey_isSome : ∀ k ∈ canonKeys, (dayOfKey k).isSome := by decide

lemma canonKeys_vals_nodup :
    (canonKeys.map (fun k => (dayOfKey k).getD 0)).Nodup := by decide

lemma dictKeys_canonMap (f : Nat → String) : dictKeys (canonMap f) = canonKeys := by
  simp [dictKeys, canonMap, canonKeys, List.map_map]

lemma dictKeys_perm_canonKeys {m : StatusMap} {f : Nat → String}
    (hperm : m.Perm (canonMap f)) : (dictKeys m).Perm canonKeys := by
  have h := hperm.map Prod.fst
  rwa [show List.map Prod.fst (canonMap f) = canonKeys from dictKeys_canonMap f] at h

lemma insertionSort_canon {keys : List String} (hperm : keys.Perm canonKeys) :
    keys.insertionSort keyLe = canonKeys := by
  have hperm2 : (keys.insertionSort keyLe).Perm canonKeys :=
    (List.perm_insertionSort keyLe keys).trans hperm
  have hsorted : (keys.insertionSort keyLe).Sorted keyLe :=
    List.sorted_insertionSort keyLe keys
  have hvals : ((keys.insertionSort keyLe).map (fun k => (dayOfKey k).getD 0)).Nodup :=
    ((hperm2.map (fun k => (dayOfKey k).getD 0)).nodup_iff).mpr canonKeys_vals_nodup
  have hne : (keys.insertionSort keyLe).Pairwise
      (fun a b => (dayOfKey a).getD 0 ≠ (dayOfKey b).getD 0) :=
    List.pairwise_map.mp hvals
  have hlt : (keys.insertionSort keyLe).Sorted keyLt := by
    refine (hsorted.and hne).imp ?_
    rintro a b ⟨hab, hab'⟩
    exact lt_of_le_of_ne hab hab'
  exact List.eq_of_perm_of_sorted hperm2 hlt canonKeys_sorted_lt

lemma sortedDictKeys_canon {m : StatusMap} {f : Nat → String}
    (hperm : m.Perm (canonMap f)) : sortedDictKeys m = some canonKeys := by
  have hk : (dictKeys m).Perm canonKeys := dictKeys_perm_canonKeys hperm
  have hall : (dictKeys m).all (fun k => (dayOfKey k).isSome) = true := by
    rw [List.all_eq_true]
    intro k hkm
    exact canonKeys_dayOfKey_isSome k (hk.mem_iff.mp hkm)
  unfold sortedDictKeys
  rw [if_pos hall, insertionSort_canon hk]

lemma dictKeys_nodup_of_perm_canon {m : StatusMap} {f : Nat → String}
    (hperm : m.Perm (canonMap f)) : (dictKeys m).Nodup :=
  ((dictKeys_perm_canonKeys hperm).nodup_iff).mpr canonKeys_nodup

lemma dictGet_canonPerm {m : StatusMap} {f : Nat → String}
    (hperm : m.Perm (canonMap f)) {d : Nat} (hd : d ∈ monthDays) (dflt : String) :
    dictGet m (monthLabel d) dflt = f d := by
  have hmem : (monthLabel d, f d) ∈ m :=
    hperm.mem_iff.mpr (List.mem_map.mpr ⟨d, hd, rfl⟩)
  exact dictGet_of_mem_nodup hmem (dictKeys_nodup_of_perm_canon hperm) dflt

/-! ## JSON round-trip lemmas -/

/-- Characters that the encoder passes through verbatim. -/
def safeChar (c : Char) : Bool :=
  c ≠ '"' && c ≠ '\\' && 32 ≤ c.toNat

def safeStr (s : String) : Bool := s.data.all safeChar

lemma jsonEscapeChar_safe {c : Char} (h : safeChar c = true) : jsonEscapeChar c = [c] := by
  simp only [safeChar, Bool.and_eq_true, decide_eq_true_eq] at h
  obtain ⟨⟨h1, h2⟩, h3⟩ := h
  rw [jsonEscapeChar, if_neg h1, if_neg h2, if_neg (by omega)]

lemma flatten_escape_safe {cs : List Char} (h : cs.all safeChar = true) :
    (cs.map jsonEscapeChar).flatten = cs := by
  induction cs with
  | nil => rfl
  | cons c rest ih =>
    rw [List.all_cons, Bool.and_eq_true] at h
    rw [List.map_cons, List.flatten_cons, jsonEscapeChar_safe h.1, ih h.2,
      List.singleton_append]

lemma parseQuotedAux_quote (rest acc : List Char) :
    parseQuotedAux ('"' :: rest) acc = some (String.mk acc.reverse, rest) := by
  conv => lhs; rw [parseQuotedAux.eq_def]
  dsimp only
  rw [if_pos rfl]

lemma parseQuotedAux_cons {c : Char} (h1 : ¬c = '"') (h2 : ¬c = '\\')
    (rest acc : List Char) :
    parseQuotedAux (c :: rest) acc = parseQuotedAux rest (c :: acc) := by
  conv => lhs; rw [parseQuotedAux.eq_def]
  dsimp only
  rw [if_neg h1, if_neg h2]

lemma parseQuotedAux_safe {cs : List Char} (h : cs.all safeChar = true)
    (acc rest : List Char) :
    parseQuotedAux (cs ++ '"' :: rest) acc = some (String.mk (acc.reverse ++ cs), rest) := by
  induction cs generalizing acc with
  | nil => rw [List.nil_append, parseQuotedAux_quote, List.append_nil]
  | cons c cs' ih =>
    rw [List.all_cons, Bool.and_eq_true] at h
    have hsafe := h.1
    simp only [safeChar, Bool.and_eq_true, decide_eq_true_eq] at hsafe
    rw [List.cons_append, parseQuotedAux_cons hsafe.1.1 hsafe.1.2, ih h.2,
      List.reverse_cons, List.append_assoc, List.singleton_append]

lemma parseQuoted_jsonQuote {s : String} (h : safeStr s = true) (rest : List Char) :
    parseQuoted (jsonQuote s ++ rest) = some (s, rest) := by
  have hq : jsonQuote s ++ rest = '"' :: (s.data ++ '"' :: rest) := by
    rw [jsonQuote]
    rw [flatten_escape_safe h]
    simp [List.append_assoc]
  rw [hq, parseQuoted, if_pos rfl, parseQuotedAux_safe h [] rest, List.reverse_nil,
    List.nil_append]

lemma jsonWs_space : jsonWs ' ' = true := rfl
lemma jsonWs_nl : jsonWs '\n' = true := rfl
lemma jsonWs_quote : jsonWs '"' = false := rfl
lemma jsonWs_colon : jsonWs ':' = false := rfl
lemma jsonWs_comma : jsonWs ',' = false := rfl
lemma jsonWs_lbrace : jsonWs '\x7b' = false := rfl

lemma skipWs_cons_ws {c : Char} (h : jsonWs c = true) (cs : List Char) :
    skipWs (c :: cs) = skipWs cs := by
  rw [skipWs, List.dropWhile_cons, if_pos h]; rfl

lemma skipWs_cons_not {c : Char} (h : jsonWs c = false) (cs : List Char) :
    skipWs (c :: cs) = c :: cs := by
  rw [skipWs, List.dropWhile_cons, if_neg (by rw [h]; exact Bool.false_ne_true)]

lemma skipWs_quote_head (s : String) (z : List Char) :
    skipWs (jsonQuote s ++ z) = jsonQuote s ++ z := by
  have : jsonQuote s ++ z =
      '"' :: (((s.data.map jsonEscapeChar).flatten ++ ['"']) ++ z) := by
    rw [jsonQuote]; rfl
  rw [this, skipWs_cons_not jsonWs_quote]

lemma skipWs_member (kv : String × String) (z : List Char) :
    skipWs (memberChars kv ++ z) =
      jsonQuote kv.1 ++ (':' :: ' ' :: (jsonQuote kv.2 ++ z)) := by
  have h1 : memberChars kv ++ z =
      ' ' :: ' ' :: (jsonQuote kv.1 ++ (':' :: ' ' :: (jsonQuote kv.2 ++ z))) := by
    rw [memberChars]; simp [List.append_assoc]
  rw [h1, skipWs_cons_ws jsonWs_space, skipWs_cons_ws jsonWs_space,
    skipWs_quote_head kv.1 (':' :: ' ' :: (jsonQuote kv.2 ++ z))]

lemma encMembers_append_close (kv : String × String) (rest : List (String × String)) :
    encMembers (kv :: rest) ++ closeChars = memberChars kv ++ memTail rest := by
  cases rest with
  | nil => rfl
  | cons kv2 rest' =>
    rw [encMembers, memTail]
    simp [List.append_assoc]

lemma jsonWs_rbrace : jsonWs '\x7d' = false := rfl

lemma parseMembers_encMembers :
    ∀ (rest : List (String × String)) (kv : String × String) (fuel : Nat),
      safeStr kv.1 = true → safeStr kv.2 = true →
      (∀ kv' ∈ rest, safeStr kv'.1 = true ∧ safeStr kv'.2 = true) →
      rest.length + 1 ≤ fuel →
      parseMembers fuel (skipWs (encMembers (kv :: rest) ++ closeChars)) =
        some (kv :: rest, []) := by
  intro rest
  induction rest with
  | nil =>
    intro kv fuel hk hv _ hf
    obtain ⟨f, rfl⟩ : ∃ f, fuel = f + 1 := ⟨fuel - 1, by omega⟩
    rw [encMembers_append_close, skipWs_member, parseMembers]
    rw [parseQuoted_jsonQuote hk]
    dsimp only [bind, Option.bind]
    rw [skipWs_cons_not jsonWs_colon]
    dsimp only
    rw [if_pos rfl, skipWs_cons_ws jsonWs_space, skipWs_quote_head,
      parseQuoted_jsonQuote hv]
    dsimp only [bind, Option.bind]
    rw [show skipWs (memTail []) = ['\x7d'] from by
      rw [memTail, closeChars, skipWs_cons_ws jsonWs_nl, skipWs_cons_not jsonWs_rbrace]]
    dsimp only
    rw [if_neg (by decide), if_pos rfl]
    rfl
  | cons kv2 rest' ih =>
    intro kv fuel hk hv hsafe hf
    obtain ⟨f, rfl⟩ : ∃ f, fuel = f + 1 := ⟨fuel - 1, by omega⟩
    rw [encMembers_append_close, skipWs_member, parseMembers]
    rw [parseQuoted_jsonQuote hk]
    dsimp only [bind, Option.bind]
    rw [skipWs_cons_not jsonWs_colon]
    dsimp only
    rw [if_pos rfl, skipWs_cons_ws jsonWs_space, skipWs_quote_head,
      parseQuoted_jsonQuote hv]
    dsimp only [bind, Option.bind]
    rw [show memTail (kv2 :: rest') = ',' :: '\n' :: (encMembers (kv2 :: rest') ++ closeChars)
      from rfl]
    rw [skipWs_cons_not jsonWs_comma]
    dsimp only
    rw [if_pos rfl, skipWs_cons_ws jsonWs_nl]
    rw [ih kv2 f (hsafe kv2 (List.mem_cons_self _ _)).1 (hsafe kv2 (List.mem_cons_self _ _)).2
      (fun kv' h' => hsafe kv' (List.mem_cons_of_mem _ h'))
      (by simp only [List.length_cons] at hf; omega)]
    dsimp only [bind, Option.bind]
    rfl

lemma length_le_skipWs_enc :
    ∀ (rest : List (String × String)) (kv : String × String),
      (kv :: rest).length ≤ (skipWs (encMembers (kv :: rest) ++ closeChars)).length := by
  intro rest
  induction rest with
  | nil =>
    intro kv
    rw [encMembers_append_close, skipWs_member]
    simp [jsonQuote, memTail, closeChars]
  | cons kv2 rest' ih =>
    intro kv
    rw [encMembers_append_close, skipWs_member]
    have h1 := ih kv2
    have h2 : (skipWs (encMembers (kv2 :: rest') ++ closeChars)).length ≤
        (encMembers (kv2 :: rest') ++ closeChars).length :=
      ((List.dropWhile_suffix jsonWs).sublist).length_le
    rw [show memTail (kv2 :: rest') = ',' :: '\n' :: (encMembers (kv2 :: rest') ++ closeChars)
      from rfl]
    simp only [List.length_cons, List.length_append, jsonQuote, closeChars,
      List.length_nil] at h1 h2 ⊢
    omega

lemma jsonLoadChars_dumpChars (m : StatusMap)
    (hsafe : ∀ kv ∈ m, safeStr kv.1 = true ∧ safeStr kv.2 = true) :
    jsonLoadChars (jsonDumpChars m) = some m := by
  cases m with
  | nil => rfl
  | cons kv rest =>
    have hk : safeStr kv.1 = true := (hsafe kv (List.mem_cons_self _ _)).1
    have hv : safeStr kv.2 = true := (hsafe kv (List.mem_cons_self _ _)).2
    have hrest : ∀ kv' ∈ rest, safeStr kv'.1 = true ∧ safeStr kv'.2 = true :=
      fun kv' h' => hsafe kv' (List.mem_cons_of_mem _ h')
    rw [jsonDumpChars, if_neg (by simp), jsonLoadChars]
    rw [skipWs_cons_not jsonWs_lbrace]
    dsimp only
    rw [if_pos rfl, skipWs_cons_ws jsonWs_nl]
    have hcons : skipWs (encMembers (kv :: rest) ++ closeChars) =
        '"' :: (((kv.1.data.map jsonEscapeChar).flatten ++ ['"']) ++
          (':' :: ' ' :: (jsonQuote kv.2 ++ memTail rest))) := by
      rw [encMembers_append_close, skipWs_member, jsonQuote]
      simp [List.cons_append]
    rw [hcons]
    dsimp only
    rw [if_neg (by decide)]
    rw [← hcons]
    rw [parseMembers_encMembers rest kv _ hk hv hrest
      (by have := length_le_skipWs_enc rest kv; simp only [List.length_cons] at this ⊢; omega)]
    dsimp only [bind, Option.bind]
    rfl

/-- The full round trip at the level of `jsonLoads`/`jsonDumps`: unique
safe keys reload to exactly the saved dict. -/
lemma jsonLoads_jsonDumps (m : StatusMap)
    (hsafe : ∀ kv ∈ m, safeStr kv.1 = true ∧ safeStr kv.2 = true)
    (hnodup : (dictKeys m).Nodup) :
    jsonLoads (jsonDumps m) = some m := by
  rw [jsonLoads, jsonDumps]
  rw [show (String.mk (jsonDumpChars m)).data = jsonDumpChars m from rfl]
  rw [jsonLoadChars_dumpChars m hsafe]
  rw [Option.map_some']
  rw [foldl_dictSet_append m [] (by intro kv h; simp [dictKeys]) hnodup]
  rw [List.nil_append]

/-! ## The narrow decoder only rejects what the acceptance model rejects

Everything `jsonLoadChars` accepts is a JSON object with string values,
hence inside the language `jsonSkip` recognizes.  Consequently
`pyJsonLoadFails s = true` — a genuine `json.load` failure — implies the
narrow decoder fails too, so `load_previous_state` yields `{}` exactly
as the program does on such content. -/

lemma parseQuotedAux_backslash (r acc : List Char) :
    parseQuotedAux ('\\' :: r) acc =
      match r with
      | [] => none
      | e :: r' =>
        match jsonUnescape e with
        | some ch => parseQuotedAux r' (ch :: acc)
        | none => none := by
  conv => lhs; rw [parseQuotedAux.eq_def]
  dsimp only
  rw [if_neg (by decide), if_pos rfl]

lemma skipJString_quote (r : List Char) : skipJString ('"' :: r) = some r := by
  conv => lhs; rw [skipJString.eq_def]
  dsimp only
  rw [if_pos rfl]

lemma skipJString_backslash (e : Char) (r : List Char) :
    skipJString ('\\' :: e :: r) = skipJString r := by
  conv => lhs; rw [skipJString.eq_def]
  dsimp only
  rw [if_neg (by decide), if_pos rfl]

lemma skipJString_cons {c : Char} (h1 : ¬c = '"') (h2 : ¬c = '\\') (r : List Char) :
    skipJString (c :: r) = skipJString r := by
  conv => lhs; rw [skipJString.eq_def]
  dsimp only
  rw [if_neg h1, if_neg h2]

lemma skipJString_of_parseQuotedAux :
    ∀ (n : Nat) (cs : List Char), cs.length ≤ n →
      ∀ (acc : List Char) (s : String) (rest : List Char),
        parseQuotedAux cs acc = some (s, rest) → skipJString cs = some rest := by
  intro n
  induction n with
  | zero =>
    intro cs hlen acc s rest h
    obtain rfl : cs = [] := List.length_eq_zero.mp (Nat.le_zero.mp hlen)
    rw [parseQuotedAux.eq_def] at h
    exact Option.noConfusion h
  | succ n ih =>
    intro cs hlen acc s rest h
    cases cs with
    | nil =>
      rw [parseQuotedAux.eq_def] at h
      exact Option.noConfusion h
    | cons c r =>
      by_cases h1 : c = '"'
      · subst h1
        rw [parseQuotedAux_quote] at h
        injection h with h'
        rw [skipJString_quote]
        exact congrArg some (congrArg Prod.snd h')
      · by_cases h2 : c = '\\'
        · subst h2
          rw [parseQuotedAux_backslash] at h
          cases r with
          | nil => exact Option.noConfusion h
          | cons e r' =>
            dsimp only at h
            cases hu : jsonUnescape e with
            | none =>
              rw [hu] at h
              exact Option.noConfusion h
            | some ch =>
              rw [hu] at h
              rw [skipJString_backslash]
              refine ih r' ?_ (ch :: acc) s rest h
              simp only [List.length_cons] at hlen
              omega
        · rw [parseQuotedAux_cons h1 h2] at h
          rw [skipJString_cons h1 h2]
          refine ih r ?_ (c :: acc) s rest h
          simp only [List.length_cons] at hlen
          omega

lemma skipJQuoted_of_parseQuoted {cs : List Char} {s : String} {rest : List Char}
    (h : parseQuoted cs = some (s, rest)) : skipJQuoted cs = some rest := by
  cases cs with
  | nil => rw [parseQuoted] at h; exact Option.noConfusion h
  | cons c r =>
    rw [parseQuoted] at h
    by_cases hc : c = '"'
    · subst hc
      rw [if_pos rfl] at h
      rw [skipJQuoted, if_pos rfl]
      exact skipJString_of_parseQuotedAux r.length r (le_refl _) [] s rest h
    · rw [if_neg hc] at h
      exact Option.noConfusion h

lemma jsonSkip_value_of_parseQuoted {cs : List Char} {s : String} {rest : List Char}
    (h : parseQuoted cs = some (s, rest)) :
    ∀ fuel, 1 ≤ fuel → jsonSkip fuel JMode.value cs = some rest := by
  intro fuel hf
  obtain ⟨f, rfl⟩ : ∃ f, fuel = f + 1 := ⟨fuel - 1, by omega⟩
  cases cs with
  | nil => rw [parseQuoted] at h; exact Option.noConfusion h
  | cons c r =>
    rw [parseQuoted] at h
    by_cases hc : c = '"'
    · subst hc
      rw [if_pos rfl] at h
      rw [jsonSkip]
      rw [if_pos rfl]
      exact skipJString_of_parseQuotedAux r.length r (le_refl _) [] s rest h
    · rw [if_neg hc] at h
      exact Option.noConfusion h

lemma jsonSkip_members_of_parseMembers :
    ∀ (fN : Nat) (cs : List Char) (mems : List (String × String)) (tail : List Char),
      parseMembers fN cs = some (mems, tail) →
      ∀ fF, fN + 1 ≤ fF → jsonSkip fF JMode.members cs = some tail := by
  intro fN
  induction fN with
  | zero =>
    intro cs mems tail h fF hfF
    rw [parseMembers] at h
    exact Option.noConfusion h
  | succ n ih =>
    intro cs mems tail h fF hfF
    obtain ⟨m, rfl⟩ : ∃ m, fF = m + 1 := ⟨fF - 1, by omega⟩
    rw [parseMembers] at h
    cases hq : parseQuoted cs with
    | none =>
      rw [hq] at h
      exact Option.noConfusion h
    | some p =>
      obtain ⟨k, cs1⟩ := p
      rw [hq] at h
      dsimp only [bind, Option.bind] at h
      rw [jsonSkip, skipJQuoted_of_parseQuoted hq]
      dsimp only [bind, Option.bind]
      cases hsw1 : skipWs cs1 with
      | nil =>
        rw [hsw1] at h
        exact Option.noConfusion h
      | cons c cs3 =>
        rw [hsw1] at h
        dsimp only at h ⊢
        by_cases hc : c = ':'
        case neg =>
          rw [if_neg hc] at h
          exact Option.noConfusion h
        case pos =>
          subst hc
          rw [if_pos rfl] at h ⊢
          cases hq2 : parseQuoted (skipWs cs3) with
          | none =>
            rw [hq2] at h
            exact Option.noConfusion h
          | some p2 =>
            obtain ⟨v, cs5⟩ := p2
            rw [hq2] at h
            dsimp only [bind, Option.bind] at h
            rw [jsonSkip_value_of_parseQuoted hq2 m (by omega)]
            dsimp only [bind, Option.bind]
            cases hsw2 : skipWs cs5 with
            | nil =>
              rw [hsw2] at h
              exact Option.noConfusion h
            | cons c2 cs7 =>
              rw [hsw2] at h
              dsimp only at h ⊢
              by_cases hc2 : c2 = ','
              · subst hc2
                rw [if_pos rfl] at h ⊢
                cases hpm : parseMembers n (skipWs cs7) with
                | none =>
                  rw [hpm] at h
                  exact Option.noConfusion h
                | some pr =>
                  obtain ⟨rest2, tail2⟩ := pr
                  rw [hpm] at h
                  dsimp only [bind, Option.bind] at h
                  injection h with h2
                  rw [ih (skipWs cs7) rest2 tail2 hpm m (by omega)]
                  exact congrArg some (congrArg Prod.snd h2)
              · rw [if_neg hc2] at h ⊢
                by_cases hc3 : c2 = '\x7d'
                · rw [if_pos hc3] at h ⊢
                  injection h with h2
                  exact congrArg some (congrArg Prod.snd h2)
                · rw [if_neg hc3] at h
                  exact Option.noConfusion h

lemma pyJsonLoadFails_eq_false_of_jsonLoadChars {s : String}
    {mems : List (String × String)} (h : jsonLoadChars s.data = some mems) :
    pyJsonLoadFails s = false := by
  rw [jsonLoadChars] at h
  rw [pyJsonLoadFails]
  have hb1 : (skipWs s.data).length ≤ s.data.length :=
    (List.dropWhile_suffix jsonWs).sublist.length_le
  cases hsw : skipWs s.data with
  | nil =>
    rw [hsw] at h
    exact Option.noConfusion h
  | cons c rest =>
    rw [hsw] at h
    dsimp only at h
    by_cases hc : c = '\x7b'
    case neg =>
      rw [if_neg hc] at h
      exact Option.noConfusion h
    case pos =>
      subst hc
      rw [if_pos rfl] at h
      rw [jsonSkip]
      rw [if_neg (by decide), if_pos rfl]
      have hb2 : (skipWs rest).length ≤ rest.length :=
        (List.dropWhile_suffix jsonWs).sublist.length_le
      cases hsw2 : skipWs rest with
      | nil =>
        rw [hsw2] at h
        exact Option.noConfusion h
      | cons c2 rest2 =>
        rw [hsw2] at h
        dsimp only at h ⊢
        by_cases hc2 : c2 = '\x7d'
        · rw [if_pos hc2] at h ⊢
          cases hie : (skipWs rest2).isEmpty with
          | false =>
            rw [if_neg (by rw [hie]; exact Bool.false_ne_true)] at h
            exact Option.noConfusion h
          | true =>
            dsimp only
            rw [hie]
            rfl
        · rw [if_neg hc2] at h ⊢
          cases hpm : parseMembers ((c2 :: rest2).length + 1) (c2 :: rest2) with
          | none =>
            rw [hpm] at h
            exact Option.noConfusion h
          | some pr =>
            obtain ⟨mems2, tail⟩ := pr
            rw [hpm] at h
            dsimp only [bind, Option.bind] at h
            have hie : (skipWs tail).isEmpty = true := by
              cases hie2 : (skipWs tail).isEmpty with
              | true => rfl
              | false =>
                rw [if_neg (by rw [hie2]; exact Bool.false_ne_true)] at h
                exact Option.noConfusion h
            have hbound : (c2 :: rest2).length + 1 + 1 ≤ s.data.length + 1 := by
              rw [hsw] at hb1
              rw [hsw2] at hb2
              simp only [List.length_cons] at hb1 hb2 ⊢
              omega
            rw [jsonSkip_members_of_parseMembers ((c2 :: rest2).length + 1)
              (c2 :: rest2) mems2 tail hpm (s.data.length + 1) hbound]
            dsimp only
            rw [hie]
            rfl

lemma jsonLoadChars_none_of_pyJsonLoadFails {s : String}
    (h : pyJsonLoadFails s = true) : jsonLoadChars s.data = none := by
  cases hl : jsonLoadChars s.data with
  | none => rfl
  | some mems =>
    rw [pyJsonLoadFails_eq_false_of_jsonLoadChars hl] at h
    exact Bool.noConfusion h

/-! ## Concrete documents for witnesses and counterexamples -/

/-- A calendar cell whose link carries day 5 and an open marker. -/
def cellDay5Open : Cell := ⟨some ⟨some "new.php?ynj=2026-2-5#cal", some "○"⟩⟩

/-- A calendar cell whose link carries day 5 and a limited marker. -/
def cellDay5Limited : Cell := ⟨some ⟨some "new.php?ynj=2026-2-5#cal", some "△"⟩⟩

/-- A calendar cell with a malformed (non-date) `ynj=` parameter and an
open marker. -/
def cellMalformed : Cell := ⟨some ⟨some "new.php?ynj=garbage", some "○"⟩⟩

/-- A calendar cell whose link carries day 31 — outside February — and an
open marker. -/
def cellDay31 : Cell := ⟨some ⟨some "new.php?ynj=2026-2-31", some "○"⟩⟩

/-- Scenario A markup: one day-5 link with an open marker. -/
def docA : HtmlDoc := ⟨[⟨[]⟩, ⟨[]⟩, ⟨[cellDay5Open]⟩]⟩

/-- Three tables, no links at all. -/
def docEmptyCalendar : HtmlDoc := ⟨[⟨[]⟩, ⟨[]⟩, ⟨[]⟩]⟩

/-- Two day-5 cells: an open marker then a limited marker. -/
def docTwoDay5 : HtmlDoc := ⟨[⟨[]⟩, ⟨[]⟩, ⟨[cellDay5Open, cellDay5Limited]⟩]⟩

/-- Three tables, one malformed marker-bearing cell. -/
def docMalformed : HtmlDoc := ⟨[⟨[]⟩, ⟨[]⟩, ⟨[cellMalformed]⟩]⟩

/-- Three tables, one out-of-month marker-bearing cell. -/
def docDay31 : HtmlDoc := ⟨[⟨[]⟩, ⟨[]⟩, ⟨[cellDay31]⟩]⟩

/-- Only two tables. -/
def docTwoTables : HtmlDoc := ⟨[⟨[]⟩, ⟨[]⟩]⟩

/-- A valid status function: day 5 open, everything else full. -/
def exF5 : Nat → String := fun d => if d = 5 then "○" else "×"

/-! ## Claim-level helper lemmas -/

lemma isEmpty_false_of_ne_nil {α : Type} {l : List α} (h : l ≠ []) :
    l.isEmpty = false := by
  cases l with
  | nil => exact absurd rfl h
  | cons a l' => rfl

lemma get_availability_status_eq (doc : HtmlDoc) (h3 : 3 ≤ doc.tables.length) :
    get_availability_status doc =
      some ((calendar_table doc).cells.foldl processCell initAvail) := by
  rw [get_availability_status, if_neg (by omega)]

lemma calendar_table_mem (doc : HtmlDoc) (h3 : 3 ≤ doc.tables.length) :
    calendar_table doc ∈ doc.tables := by
  have hne : doc.tables.drop 2 ≠ [] := by
    intro h
    have hlen := List.drop_eq_nil_iff.mp h
    omega
  obtain ⟨t, ts, hts⟩ : ∃ t ts, doc.tables.drop 2 = t :: ts := by
    cases hd : doc.tables.drop 2 with
    | nil => exact absurd hd hne
    | cons t ts => exact ⟨t, ts, rfl⟩
  have hcal : calendar_table doc = t := by rw [calendar_table, hts]; rfl
  rw [hcal]
  exact List.drop_subset 2 doc.tables (hts ▸ List.mem_cons_self t ts)

/-- C2: markup with at least three tables and zero recognized day-links
with availability markers extracts successfully to the all-Full map:
every day of February 2026 maps to `"×"` (Full). -/
theorem C2_no_markers_yields_all_full (doc : HtmlDoc) (h3 : 3 ≤ doc.tables.length)
    (hnm : ∀ t ∈ doc.tables, ∀ c ∈ t.cells, cellWrite c = none) :
    get_availability_status doc = some initAvail ∧
      ∀ d ∈ monthDays, dictGet initAvail (monthLabel d) "" = "×" := by
  constructor
  · rw [get_availability_status_eq doc h3]
    congr 1
    exact foldl_processCell_no_writes
      (fun c hc => hnm (calendar_table doc) (calendar_table_mem doc h3) c hc) initAvail
  · decide

theorem C2_no_markers_yields_all_full_witness :
    3 ≤ docEmptyCalendar.tables.length ∧
      (∀ t ∈ docEmptyCalendar.tables, ∀ c ∈ t.cells, cellWrite c = none) ∧
      (get_availability_status docEmptyCalendar = some initAvail ∧
        ∀ d ∈ monthDays, dictGet initAvail (monthLabel d) "" = "×") :=
  ⟨by decide, by decide, C2_no_markers_yields_all_full docEmptyCalendar (by decide) (by decide)⟩

/-- C4 fails as stated: in this markup the only calendar cell has a
malformed date parameter (`ynj=garbage`) and an open marker, yet it is
not skipped — it contributes a spurious entry `"2月garbage日"` to the
result instead of contributing nothing. -/
theorem C4_counterexample :
    get_availability_status docMalformed = some (initAvail ++ [("2月garbage日", "○")]) ∧
      initAvail ++ [("2月garbage日", "○")] ≠ initAvail := by decide

/-- C4 (amended): with at least three tables, extraction always succeeds
— per-cell irregularities never abort it — and a key that no cell
writes (in particular any day whose cells are all malformed for other
labels or markerless) keeps its seeded value; a malformed cell with a
recognized marker, however, contributes an entry under its derived day
label instead of being skipped. -/
theorem C4_malformed_cells_do_not_abort (doc : HtmlDoc) (h3 : 3 ≤ doc.tables.length) :
    (get_availability_status doc).isSome = true ∧
      ∀ m, get_availability_status doc = some m →
        ∀ k dflt,
          (∀ c ∈ (calendar_table doc).cells, ∀ kv, cellWrite c = some kv → kv.1 ≠ k) →
          dictGet m k dflt = dictGet initAvail k dflt := by
  constructor
  · rw [get_availability_status_eq doc h3]; rfl
  · intro m hm k dflt hk
    rw [get_availability_status_eq doc h3] at hm
    injection hm with hm'
    subst hm'
    exact foldl_processCell_get_untouched hk initAvail dflt

theorem C4_malformed_cells_do_not_abort_witness :
    3 ≤ docMalformed.tables.length ∧
      ((get_availability_status docMalformed).isSome = true ∧
        ∀ m, get_availability_status docMalformed = some m →
          ∀ k dflt,
            (∀ c ∈ (calendar_table docMalformed).cells, ∀ kv,
              cellWrite c = some kv → kv.1 ≠ k) →
            dictGet m k dflt = dictGet initAvail k dflt) ∧
      dictGet (initAvail ++ [("2月garbage日", "○")]) "2月5日" "" = "×" :=
  ⟨by decide, C4_malformed_cells_do_not_abort docMalformed (by decide), by decide⟩

/-- C5 fails as stated: extraction succeeds on this markup but the result
carries the key `"2月31日"` — day 31, outside February 2026. -/
theorem C5_counterexample :
    get_availability_status docDay31 = some (initAvail ++ [("2月31日", "○")]) ∧
      monthLabel 31 ∈ dictKeys (initAvail ++ [("2月31日", "○")]) ∧
      31 ∉ monthDays := by decide

/-- C5 (amended): every successful extraction covers the whole month —
the key set contains the label of every day of February 2026 (no missing
keys) — though marker-bearing cells with out-of-month or malformed date
parameters may add extra keys beyond the month. -/
theorem C5_month_coverage (doc : HtmlDoc) (m : StatusMap)
    (hm : get_availability_status doc = some m) :
    ∀ d ∈ monthDays, monthLabel d ∈ dictKeys m := by
  have hm' : m = (calendar_table doc).cells.foldl processCell initAvail := by
    rw [get_availability_status] at hm
    by_cases h : doc.tables.length < 3
    · rw [if_pos h] at hm; exact absurd hm (by simp)
    · rw [if_neg h] at hm; exact (Option.some.inj hm).symm
  subst hm'
  intro d hd
  refine mem_dictKeys_foldl_processCell ?_
  simp only [initAvail, dictKeys, List.map_map, List.mem_map]
  exact ⟨d, hd, rfl⟩

theorem C5_month_coverage_witness :
    get_availability_status docA = some (dictSet initAvail "2月5日" "○") ∧
      (∀ d ∈ monthDays, monthLabel d ∈ dictKeys (dictSet initAvail "2月5日" "○")) :=
  ⟨by decide, C5_month_coverage docA (dictSet initAvail "2月5日" "○") (by decide)⟩

/-- C6: markup with fewer than three tables makes extraction fail
(`None`), and the cycle in which that happens leaves the state file
untouched and sends no notification. -/
theorem C6_missing_table_aborts_cycle (doc : HtmlDoc) (h : doc.tables.length < 3)
    (store : StateFile) :
    get_availability_status doc = none ∧ runCycle (some doc) store = some (store, []) := by
  have hget : get_availability_status doc = none := by
    rw [get_availability_status, if_pos h]
  refine ⟨hget, ?_⟩
  rw [runCycle, Option.some_bind, hget]

theorem C6_missing_table_aborts_cycle_witness :
    docTwoTables.tables.length < 3 ∧
      (get_availability_status docTwoTables = none ∧
        runCycle (some docTwoTables) StateFile.absent = some (StateFile.absent, [])) :=
  ⟨by decide, C6_missing_table_aborts_cycle docTwoTables (by decide) StateFile.absent⟩

/-- C3 fails as stated: `docTwoDay5`'s first calendar cell carries a
day-5 link whose emphasized text contains the open marker, yet day 5's
status in the result is `"△"` (Limited), not `"○"` (Open) — a later
day-5 cell overwrote it. -/
theorem C3_counterexample :
    cellWrite cellDay5Open = some ("2月5日", "○") ∧
      get_availability_status docTwoDay5 =
        some (dictSet (dictSet initAvail "2月5日" "○") "2月5日" "△") ∧
      dictGet (dictSet (dictSet initAvail "2月5日" "○") "2月5日" "△") "2月5日" "" = "△" ∧
      ("△" : String) ≠ "○" := by decide

/-- C3 (amended): a day's status is decided by the last calendar cell (in
document order) whose link writes that day's label — open marker `"○"`,
else limited marker `"△"`, as given by `cellWrite` — and a day no cell
writes keeps its seeded `"×"` (Full).  Scenario A (one day-5 link with an
open marker, no others) follows: day 5 is Open, every other day Full. -/
theorem C3_last_marker_cell_decides (doc : HtmlDoc) (h3 : 3 ≤ doc.tables.length)
    (m : StatusMap) (hm : get_availability_status doc = some m) (k dflt : String) :
    dictGet m k dflt =
      (((calendar_table doc).cells.filterMap (cellWriteTo k)).getLast?).getD
        (dictGet initAvail k dflt) := by
  rw [get_availability_status_eq doc h3] at hm
  injection hm with hm'
  subst hm'
  exact foldl_processCell_get_last _ k dflt initAvail

theorem C3_last_marker_cell_decides_witness :
    3 ≤ docA.tables.length ∧
      get_availability_status docA = some (dictSet initAvail "2月5日" "○") ∧
      dictGet (dictSet initAvail "2月5日" "○") "2月5日" "" =
        ((((calendar_table docA).cells.filterMap (cellWriteTo "2月5日")).getLast?).getD
          (dictGet initAvail "2月5日" "")) ∧
      dictGet (dictSet initAvail "2月5日" "○") "2月5日" "" = "○" ∧
      dictGet (dictSet initAvail "2月5日" "○") "2月6日" "" = "×" :=
  ⟨by decide, by decide,
    C3_last_marker_cell_decides docA (by decide) _ (by decide) "2月5日" "",
    by decide, by decide⟩

lemma compare_and_notify_nil_prev (current : StatusMap) (f : Nat → String)
    (hcur : current.Perm (canonMap f)) :
    compare_and_notify current [] =
      some (NotifyOutcome.firstRun (monthDays.filterMap (fun d =>
        if f d ∈ ["○", "△"] then some (availLine (monthLabel d) (f d)) else none))) := by
  rw [compare_and_notify,
    if_pos (show (List.isEmpty ([] : StatusMap)) = true from rfl),
    sortedDictKeys_canon hcur, Option.map_some']
  congr 1
  congr 1
  rw [canonKeys, List.filterMap_map]
  refine List.filterMap_congr ?_
  intro d hd
  simp only [Function.comp_apply]
  rw [dictGet_canonPerm hcur hd]

/-- C1: against a present (nonempty) previous map, the diff branch emits
exactly one transition triple for each day of the (valid) current map
whose status differs from the previous map's — defaulting the previous
status to `"×"` (Full) when the day is absent from the previous map —
none for days with equal statuses, and in ascending day order regardless
of the current map's internal insertion order (the permutation `hcur` is
arbitrary, the right-hand side is order-independent). -/
theorem C1_diff_emits_sorted_transitions (current previous : StatusMap)
    (f : Nat → String) (hcur : current.Perm (canonMap f)) (hprev : previous ≠ []) :
    compare_and_notify current previous =
      some (NotifyOutcome.changes
        ((monthDays.filterMap (fun d =>
          if f d ≠ dictGet previous (monthLabel d) "×" then
            some (monthLabel d, dictGet previous (monthLabel d) "×", f d)
          else none)).map (fun t => changeLine t.1 t.2.1 t.2.2))) := by
  rw [compare_and_notify,
    if_neg (by rw [isEmpty_false_of_ne_nil hprev]; exact Bool.false_ne_true),
    sortedDictKeys_canon hcur, Option.map_some']
  congr 1
  congr 1
  congr 1
  rw [change_triples, canonKeys, List.filterMap_map]
  refine List.filterMap_congr ?_
  intro d hd
  simp only [Function.comp_apply]
  rw [dictGet_canonPerm hcur hd]

theorem C1_diff_emits_sorted_transitions_witness :
    (canonMap exF5).Perm (canonMap exF5) ∧ initAvail ≠ [] ∧
      compare_and_notify (canonMap exF5) initAvail =
        some (NotifyOutcome.changes
          ((monthDays.filterMap (fun d =>
            if exF5 d ≠ dictGet initAvail (monthLabel d) "×" then
              some (monthLabel d, dictGet initAvail (monthLabel d) "×", exF5 d)
            else none)).map (fun t => changeLine t.1 t.2.1 t.2.2))) ∧
      (monthDays.filterMap (fun d =>
        if exF5 d ≠ dictGet initAvail (monthLabel d) "×" then
          some (monthLabel d, dictGet initAvail (monthLabel d) "×", exF5 d)
        else none)) = [("2月5日", "×", "○")] :=
  ⟨List.Perm.refl _, by decide,
    C1_diff_emits_sorted_transitions (canonMap exF5) initAvail exF5
      (List.Perm.refl _) (by decide),
    by decide⟩

/-- C7: with an absent state file, or a stored representation that
`json.load` genuinely raises on (`pyJsonLoadFails`, whose recognizer
accepts a superset of everything Python accepts, so its rejections are
real parse failures), loading yields `{}` and the comparison always
takes the first-run branch — even for an all-Full current map — whose
snapshot lists exactly the currently Open or Limited days in ascending
day order; the message is always handed to the notifier, and when no
day is available it is the explicit "nothing available" text.  (A
stored text `json.load` parses to something other than a string-valued
object is outside this hypothesis: the program does not treat it as
absent — it flows into the comparison.) -/
theorem C7_absent_or_corrupt_first_observation (current : StatusMap)
    (f : Nat → String) (hcur : current.Perm (canonMap f)) (store : StateFile)
    (habs : store = StateFile.absent ∨
      ∃ s, store = StateFile.stored s ∧ pyJsonLoadFails s = true) :
    load_previous_state store = [] ∧
      compare_and_notify current (load_previous_state store) =
        some (NotifyOutcome.firstRun (monthDays.filterMap (fun d =>
          if f d ∈ ["○", "△"] then some (availLine (monthLabel d) (f d)) else none))) ∧
      sentMessages (NotifyOutcome.firstRun (monthDays.filterMap (fun d =>
          if f d ∈ ["○", "△"] then some (availLine (monthLabel d) (f d)) else none))) =
        [renderFirstRun (monthDays.filterMap (fun d =>
          if f d ∈ ["○", "△"] then some (availLine (monthLabel d) (f d)) else none))] ∧
      renderFirstRun [] =
        "🚢 *オーロラ号監視を開始しました*\n\n📅 *2026年2月の現在の空き状況:*\n  現在空きのある日はありません（全て満席）\n\n⏰ 10分おきに監視します" := by
  have hload : load_previous_state store = [] := by
    rcases habs with rfl | ⟨s, rfl, hs⟩
    · rfl
    · rw [load_previous_state, jsonLoads, jsonLoadChars_none_of_pyJsonLoadFails hs]
      rfl
  refine ⟨hload, ?_, rfl, by decide⟩
  rw [hload]
  exact compare_and_notify_nil_prev current f hcur

theorem C7_absent_or_corrupt_first_observation_witness :
    initAvail.Perm (canonMap (fun _ => "×")) ∧
      pyJsonLoadFails "not json" = true ∧
      (load_previous_state (StateFile.stored "not json") = [] ∧
        compare_and_notify initAvail (load_previous_state (StateFile.stored "not json")) =
          some (NotifyOutcome.firstRun (monthDays.filterMap (fun d =>
            if (fun _ => "×") d ∈ ["○", "△"] then
              some (availLine (monthLabel d) ((fun _ => "×") d))
            else none))) ∧
        sentMessages (NotifyOutcome.firstRun (monthDays.filterMap (fun d =>
            if (fun _ => "×") d ∈ ["○", "△"] then
              some (availLine (monthLabel d) ((fun _ => "×") d))
            else none))) =
          [renderFirstRun (monthDays.filterMap (fun d =>
            if (fun _ => "×") d ∈ ["○", "△"] then
              some (availLine (monthLabel d) ((fun _ => "×") d))
            else none))] ∧
        renderFirstRun [] =
          "🚢 *オーロラ号監視を開始しました*\n\n📅 *2026年2月の現在の空き状況:*\n  現在空きのある日はありません（全て満席）\n\n⏰ 10分おきに監視します") ∧
      (monthDays.filterMap (fun d =>
        if (fun _ => "×") d ∈ ["○", "△"] then
          some (availLine (monthLabel d) ((fun _ => "×") d))
        else none)) = [] :=
  ⟨List.Perm.refl _, by decide,
    C7_absent_or_corrupt_first_observation initAvail (fun _ => "×")
      (List.Perm.refl _) (StateFile.stored "not json")
      (Or.inr ⟨"not json", rfl, by decide⟩),
    by decide⟩

/-- C8: diffing a valid nonempty map against itself lands in the change
branch (never the first-run branch) with an empty change list, and an
empty change list is not handed to the notifier. -/
theorem C8_diff_idempotent_silent (m : StatusMap) (hne : m ≠ [])
    (hkeys : ∀ k ∈ dictKeys m, (dayOfKey k).isSome) :
    compare_and_notify m m = some (NotifyOutcome.changes []) ∧
      sentMessages (NotifyOutcome.changes []) = [] := by
  refine ⟨?_, rfl⟩
  rw [compare_and_notify,
    if_neg (by rw [isEmpty_false_of_ne_nil hne]; exact Bool.false_ne_true),
    sortedDictKeys, if_pos (List.all_eq_true.mpr (fun k hk => hkeys k hk)),
    Option.map_some']
  congr 1
  congr 1
  have htriv : change_triples m m ((dictKeys m).insertionSort keyLe) = [] := by
    rw [change_triples, List.filterMap_eq_nil_iff]
    intro day hday
    have hmem : day ∈ dictKeys m :=
      (List.perm_insertionSort keyLe (dictKeys m)).mem_iff.mp hday
    dsimp only
    rw [if_neg]
    intro hne'
    exact hne' (dictGet_eq_of_key_mem hmem "" "×")
  rw [htriv]
  rfl

theorem C8_diff_idempotent_silent_witness :
    initAvail ≠ [] ∧ (∀ k ∈ dictKeys initAvail, (dayOfKey k).isSome) ∧
      (compare_and_notify initAvail initAvail = some (NotifyOutcome.changes []) ∧
        sentMessages (NotifyOutcome.changes []) = []) :=
  ⟨by decide, by decide, C8_diff_idempotent_silent initAvail (by decide) (by decide)⟩

/-- C10: a stored state that deserializes to the empty object loads as
`{}`, exactly what an absent file loads as, so the comparison produces
the first-observation snapshot rather than transitions computed against
an empty prior map. -/
theorem C10_empty_stored_state_first_run (s : String)
    (hs : jsonLoadChars s.data = some []) (current : StatusMap) (f : Nat → String)
    (hcur : current.Perm (canonMap f)) :
    load_previous_state (StateFile.stored s) = load_previous_state StateFile.absent ∧
      compare_and_notify current (load_previous_state (StateFile.stored s)) =
        some (NotifyOutcome.firstRun (monthDays.filterMap (fun d =>
          if f d ∈ ["○", "△"] then some (availLine (monthLabel d) (f d)) else none))) := by
  have hload : load_previous_state (StateFile.stored s) = [] := by
    rw [load_previous_state, jsonLoads, hs]; rfl
  refine ⟨hload.trans rfl, ?_⟩
  rw [hload]
  exact compare_and_notify_nil_prev current f hcur

theorem C10_empty_stored_state_first_run_witness :
    jsonLoadChars ("\x7b\x7d" : String).data = some [] ∧
      (canonMap exF5).Perm (canonMap exF5) ∧
      (load_previous_state (StateFile.stored "\x7b\x7d") =
          load_previous_state StateFile.absent ∧
        compare_and_notify (canonMap exF5) (load_previous_state (StateFile.stored "\x7b\x7d")) =
          some (NotifyOutcome.firstRun (monthDays.filterMap (fun d =>
            if exF5 d ∈ ["○", "△"] then some (availLine (monthLabel d) (exF5 d))
            else none)))) ∧
      (monthDays.filterMap (fun d =>
        if exF5 d ∈ ["○", "△"] then some (availLine (monthLabel d) (exF5 d))
        else none)) = [availLine "2月5日" "○"] :=
  ⟨by decide, List.Perm.refl _,
    C10_empty_stored_state_first_run "\x7b\x7d" (by decide) (canonMap exF5) exF5
      (List.Perm.refl _),
    by decide⟩

/-- C9: saving a map with unique keys made of JSON-safe characters (all
valid `DayStatusMap`s — day labels and the three marker symbols — are
such) and loading it back returns exactly the saved map. -/
theorem C9_state_roundtrip (m : StatusMap) (store : StateFile)
    (hnodup : (dictKeys m).Nodup)
    (hsafe : ∀ kv ∈ m, safeStr kv.1 = true ∧ safeStr kv.2 = true) :
    load_previous_state (save_current_state m store) = m := by
  rw [save_current_state, load_previous_state, jsonLoads_jsonDumps m hsafe hnodup]
  rfl

theorem C9_state_roundtrip_witness :
    (dictKeys initAvail).Nodup ∧
      (∀ kv ∈ initAvail, safeStr kv.1 = true ∧ safeStr kv.2 = true) ∧
      load_previous_state (save_current_state initAvail StateFile.absent) = initAvail :=
  ⟨by decide, by decide, C9_state_roundtrip initAvail StateFile.absent (by decide) (by decide)⟩
